import Mathlib

/-!
Verification of the phylogene pipeline (src/phylogene.py).

The script `run_phylogenetic_analysis` orchestrates three stages: (1) multiple
sequence alignment via an external tool, (2) distance-matrix computation and
UPGMA tree construction followed by a Newick write, and (3) rendering a PNG.
The algorithmic core (identity distance, UPGMA clustering, Newick
serialization) is delegated to a library and is specified in detail by the
design document; we model that core from the spec and model the orchestration's
file effects from the script itself.  Distances are modelled as rationals.
-/

deriving instance DecidableEq for Except

namespace Phylogene

/-- A record of the alignment: an identifier and an aligned sequence. -/
structure SeqRecord where
  id : String
  seq : List Char
  deriving DecidableEq, Repr

/-- Errors of the pipeline core, as named by the design document. -/
inductive PhyloError where
  | degenerateAlignment
  | insufficientTaxa
  | internalError
  deriving DecidableEq, Repr

/-- The conventional gap symbol. -/
def isGap (c : Char) : Bool := c = '-'

/-- Modelled from the spec: a position of a pair of aligned sequences is
*comparable* if neither sequence has a gap symbol there. -/
def comparableCount (s t : List Char) : ℕ :=
  ((s.zip t).filter (fun p => !isGap p.1 && !isGap p.2)).length

/-- Modelled from the spec: a position is *identical* if it is comparable and
the two residues are equal. -/
def identicalCount (s t : List Char) : ℕ :=
  ((s.zip t).filter (fun p => !isGap p.1 && !isGap p.2 && decide (p.1 = p.2))).length

/-- Modelled from the spec: the identity distance of the DistanceCalculator,
`1 - identical_count / comparable_count`, failing with
`DegenerateAlignmentError` when no ungapped column is shared
(the calculator itself is library code not present in src/). -/
def pairDistance (s t : List Char) : Except PhyloError ℚ :=
  if comparableCount s t = 0 then .error .degenerateAlignment
  else .ok (1 - (identicalCount s t : ℚ) / (comparableCount s t : ℚ))

/-- Effectful map over a list in the `Except` monad: stop at the first
failure, otherwise collect the results in order. -/
def mapE {α β ε : Type} (f : α → Except ε β) : List α → Except ε (List β)
  | [] => .ok []
  | a :: l =>
      match f a with
      | .error e => .error e
      | .ok b =>
          match mapE f l with
          | .error e => .error e
          | .ok r => .ok (b :: r)

/-- Modelled from the spec: the full distance matrix of an alignment, one row
per record; fails if any pair shares no ungapped column. -/
def computePairs (recs : List SeqRecord) : Except PhyloError (List (List ℚ)) :=
  mapE (fun r => mapE (fun s => pairDistance r.seq s.seq) recs) recs

/-- A node of the phylogenetic tree: a leaf wrapping a record identifier or an
internal node with exactly two children; `branchLength` is the distance to the
parent (unused at the root). -/
inductive TreeNode where
  | leaf (label : String) (branchLength : ℚ)
  | internal (left : TreeNode) (right : TreeNode) (branchLength : ℚ)
  deriving DecidableEq, Repr

/-- Replace the branch length at the root of a subtree (set when the subtree
is attached to a new parent during a merge). -/
def TreeNode.setBL : TreeNode → ℚ → TreeNode
  | .leaf l _, b => .leaf l b
  | .internal x y _, b => .internal x y b

/-- The leaf labels of a tree, left to right. -/
def TreeNode.leafLabels : TreeNode → List String
  | .leaf l _ => [l]
  | .internal x y _ => x.leafLabels ++ y.leafLabels

/-- The number of leaves of a tree. -/
def TreeNode.leafCount : TreeNode → ℕ
  | .leaf _ _ => 1
  | .internal x y _ => x.leafCount + y.leafCount

/-- An active cluster of the UPGMA working set: its already-built subtree, the
leaf identifiers beneath it, and its height. -/
structure Cluster where
  tree : TreeNode
  members : List String
  height : ℚ
  deriving DecidableEq, Repr

/-- Sum of `d0 x y` over all member pairs of two clusters. -/
def sumDist (d0 : String → String → ℚ) (xs ys : List String) : ℚ :=
  (xs.map (fun x => (ys.map (fun y => d0 x y)).sum)).sum

/-- Modelled from the spec: the average-linkage distance between two clusters,
the mean of the leaf-pair distances.  The spec maintains this quantity
incrementally by the size-weighted update
`d(M,C) = (|A| d(A,C) + |B| d(B,C)) / (|A| + |B|)`; we compute it from the
leaf distances and prove the update equation as a theorem. -/
def clusterDist (d0 : String → String → ℚ) (a b : Cluster) : ℚ :=
  sumDist d0 a.members b.members / ((a.members.length : ℚ) * (b.members.length : ℚ))

/-- Insert a string into a sorted list of strings. -/
def insertStr (x : String) : List String → List String
  | [] => [x]
  | y :: ys => if x ≤ y then x :: y :: ys else y :: insertStr x ys

/-- Sort a list of strings (insertion sort). -/
def sortStr : List String → List String
  | [] => []
  | x :: xs => insertStr x (sortStr xs)

/-- Lexicographic strict order on lists of strings (for the tie-break). -/
def strListLt : List String → List String → Bool
  | [], [] => false
  | [], _ :: _ => true
  | _ :: _, [] => false
  | a :: as, b :: bs => if a < b then true else if b < a then false else strListLt as bs

/-- Modelled from the spec: the tie-break key of a candidate pair, the sorted
concatenation of the member-identifier sets of the two clusters. -/
def pairKey (a b : Cluster) : List String := sortStr (a.members ++ b.members)

/-- Whether candidate pair `p` beats candidate pair `q`: strictly smaller
distance, or equal distance and lexicographically earlier key. -/
def betterPair (d0 : String → String → ℚ) (p q : Cluster × Cluster) : Bool :=
  let dp := clusterDist d0 p.1 p.2
  let dq := clusterDist d0 q.1 q.2
  dp < dq || (dp == dq && strListLt (pairKey p.1 p.2) (pairKey q.1 q.2))

/-- All unordered pairs of a list, each in list order. -/
def allPairs : List Cluster → List (Cluster × Cluster)
  | [] => []
  | c :: cs => cs.map (fun d => (c, d)) ++ allPairs cs

/-- One comparison of the minimum search: keep the better of the current best
candidate pair and the next pair. -/
def chooseStep (d0 : String → String → ℚ) (best : Option (Cluster × Cluster))
    (p : Cluster × Cluster) : Option (Cluster × Cluster) :=
  match best with
  | none => some p
  | some q => if betterPair d0 p q then some p else some q

/-- Modelled from the spec: find the pair of distinct active clusters with the
globally minimum distance, tie-broken by the sorted concatenation of the
member identifiers. -/
def chooseMinPair (d0 : String → String → ℚ) (cs : List Cluster) :
    Option (Cluster × Cluster) :=
  (allPairs cs).foldl (chooseStep d0) none

/-- Modelled from the spec: merge two clusters into a new internal node `M`
with `M.height = d(A,B)/2` and child branch lengths `M.height - child.height`
clamped at zero. -/
def mergeClusters (d0 : String → String → ℚ) (a b : Cluster) : Cluster :=
  let h := clusterDist d0 a b / 2
  { tree := .internal (a.tree.setBL (max (h - a.height) 0))
      (b.tree.setBL (max (h - b.height) 0)) 0
    members := a.members ++ b.members
    height := h }

/-- Modelled from the spec: one UPGMA iteration — remove the minimum-distance
pair from the active set and append their merge. -/
def mergeStep (d0 : String → String → ℚ) (cs : List Cluster) : List Cluster :=
  match chooseMinPair d0 cs with
  | none => cs
  | some (a, b) =>
      cs.filter (fun c => !(c == a) && !(c == b)) ++ [mergeClusters d0 a b]

/-- Iterate `mergeStep` a fixed number of times. -/
def iterateMerge (d0 : String → String → ℚ) : ℕ → List Cluster → List Cluster
  | 0, cs => cs
  | n + 1, cs => iterateMerge d0 n (mergeStep d0 cs)

/-- The initial working set: one cluster per leaf identifier, at height 0. -/
def initClusters (ids : List String) : List Cluster :=
  ids.map (fun i => { tree := .leaf i 0, members := [i], height := 0 })

/-- Modelled from the spec: the UPGMA TreeBuilder.  Fails with
`InsufficientTaxaError` on fewer than two leaves; otherwise performs
`n - 1` merges and returns the single remaining cluster's tree
(the builder is library code not present in src/). -/
def buildTree (d0 : String → String → ℚ) (ids : List String) :
    Except PhyloError TreeNode :=
  if ids.length < 2 then .error .insufficientTaxa
  else
    match iterateMerge d0 (ids.length - 1) (initClusters ids) with
    | [c] => .ok c.tree
    | _ => .error .internalError

/-- The decimal digits of a natural number, most significant first
(fuel-based so that it reduces structurally). -/
def natDigitsAux : ℕ → ℕ → List Char
  | 0, _ => []
  | fuel + 1, n =>
      if n = 0 then []
      else natDigitsAux fuel (n / 10) ++ [Char.ofNat (48 + n % 10)]

/-- Render a natural number in decimal. -/
def natStr (n : ℕ) : String :=
  if n = 0 then "0" else ⟨natDigitsAux (n + 1) n⟩

/-- Left-pad a digit list with zeros to length `k`. -/
def padZeros (k : ℕ) (ds : List Char) : List Char :=
  List.replicate (k - ds.length) '0' ++ ds

/-- Drop trailing zeros, keeping at least one digit. -/
def trimZeros (ds : List Char) : List Char :=
  let r := (ds.reverse.dropWhile (fun c => c == '0'))
  if r = [] then ['0'] else r.reverse

/-- Modelled from the spec: fixed-precision decimal rendering of a branch
length (five decimal places, trailing zeros trimmed). -/
def formatRat (q : ℚ) : String :=
  let sign := if q < 0 then "-" else ""
  let a : ℚ := if q < 0 then -q else q
  let scaled : ℕ := (a * 100000).floor.toNat
  let ip := scaled / 100000
  let fp := scaled % 100000
  sign ++ natStr ip ++ "." ++ ⟨trimZeros (padZeros 5 (natDigitsAux (fp + 1) fp))⟩

/-- Modelled from the spec: the Newick rendering of a non-root node,
`label:branch_length` for a leaf and `(c1,c2):branch_length` for an internal
node. -/
def TreeNode.newickAux : TreeNode → String
  | .leaf l b => l ++ ":" ++ formatRat b
  | .internal x y b => "(" ++ x.newickAux ++ "," ++ y.newickAux ++ "):" ++ formatRat b

/-- Modelled from the spec: the Newick serialization of a tree; the root omits
its own branch length and the string is terminated by a semicolon. -/
def toNewick : TreeNode → String
  | .leaf l _ => l ++ ";"
  | .internal x y _ => "(" ++ x.newickAux ++ "," ++ y.newickAux ++ ");"

/-- Modelled from the spec: the leaf-distance function the tree builder reads
off the alignment (the identity distance between the sequences of the two
identifiers; defaults are never reached once `computePairs` has succeeded). -/
def d0OfRecs (recs : List SeqRecord) (i j : String) : ℚ :=
  match recs.find? (fun r => r.id == i), recs.find? (fun r => r.id == j) with
  | some r, some s => ((pairDistance r.seq s.seq).toOption).getD 0
  | _, _ => 0

/-- Modelled from the spec: `constructor.build_tree(aln)` — the tree builder
recomputes the distance matrix from the alignment itself and then clusters
(line 77 of src/phylogene.py passes the alignment, not the matrix). -/
def buildTreeFromAlignment (recs : List SeqRecord) : Except PhyloError TreeNode :=
  match computePairs recs with
  | .error e => .error e
  | .ok _ => buildTree (d0OfRecs recs) (recs.map (fun r => r.id))

/-- The tree-construction stage as the script runs it (lines 71-81):
the distance matrix is computed explicitly (line 73) and discarded, the tree
is built from the alignment (line 77), and the Newick text is produced.
Returns the tree together with its Newick serialization. -/
def runCore (recs : List SeqRecord) : Except PhyloError (TreeNode × String) :=
  match computePairs recs with
  | .error e => .error e
  | .ok _ =>
      match buildTreeFromAlignment recs with
      | .error e => .error e
      | .ok t => .ok (t, toNewick t)

/-- The tree-construction stage with the explicit `get_distance` call of
line 73 removed: the tree is built directly from the alignment. -/
def runCoreNoExplicitMatrix (recs : List SeqRecord) :
    Except PhyloError (TreeNode × String) :=
  match buildTreeFromAlignment recs with
  | .error e => .error e
  | .ok t => .ok (t, toNewick t)

/-- The files the script writes into its output directory. -/
inductive OutFile where
  | alignedFasta
  | newickFile
  | pngImage
  deriving DecidableEq, Repr

/-- Which of the three stages' underlying operations succeed on a given run
(alignment, tree construction + Newick write, PNG rendering). -/
structure StageOutcomes where
  alignOk : Bool
  treeOk : Bool
  drawOk : Bool
  deriving DecidableEq, Repr

/-- The file effects of `run_phylogenetic_analysis` (src/phylogene.py lines
41-100): each stage writes its file and, on an exception, the script prints a
message and exits, leaving the files of the completed stages behind.  Returns
the files present on disk and whether the run completed. -/
def scriptRun (o : StageOutcomes) : List OutFile × Bool :=
  if !o.alignOk then ([], false)
  else if !o.treeOk then ([.alignedFasta], false)
  else if !o.drawOk then ([.alignedFasta, .newickFile], false)
  else ([.alignedFasta, .newickFile, .pngImage], true)

/-- Two clusters have disjoint member sets. -/
def Disj (c d : Cluster) : Prop := ∀ x, x ∈ c.members → x ∉ d.members

/-- The invariant of the UPGMA working set: every active cluster is nonempty
and its subtree's leaves are exactly its members; member sets are pairwise
disjoint; and together the members are exactly the input identifiers. -/
def ClusterInv (ids : List String) (cs : List Cluster) : Prop :=
  (∀ c ∈ cs, c.members ≠ [] ∧ c.tree.leafLabels = c.members) ∧
  cs.Pairwise Disj ∧
  (cs.map (fun c => (c.members : Multiset String))).sum = (ids : Multiset String)

/-- The four-sequence scenario of the design document:
`A=AAAA`, `B=AAAT`, `C=TTTT`, `D=TTTA`, already aligned, length 4, no gaps. -/
def demoRecs : List SeqRecord :=
  [⟨"A", "AAAA".data⟩, ⟨"B", "AAAT".data⟩, ⟨"C", "TTTT".data⟩, ⟨"D", "TTTA".data⟩]

/-- The distance matrix the pipeline computes on `demoRecs`. -/
def demoMatrix : List (List ℚ) :=
  [[0, 1/4, 1, 3/4], [1/4, 0, 3/4, 1], [1, 3/4, 0, 1/4], [3/4, 1, 1/4, 0]]

/-- The tree the pipeline builds on `demoRecs`. -/
def demoTree : TreeNode :=
  .internal
    (.internal (.leaf "A" (1/8)) (.leaf "B" (1/8)) (5/16))
    (.internal (.leaf "C" (1/8)) (.leaf "D" (1/8)) (5/16))
    0

/-! ## Theorems -/

set_option maxRecDepth 40000

theorem identicalCount_le_comparableCount (s t : List Char) :
    identicalCount s t ≤ comparableCount s t := by
  unfold identicalCount comparableCount
  induction s.zip t with
  | nil => simp
  | cons p l ih =>
      cases h1 : isGap p.1 <;> cases h2 : isGap p.2 <;> cases h3 : decide (p.1 = p.2) <;>
        simp only [List.filter_cons, h1, h2, h3, Bool.not_true, Bool.not_false,
          Bool.true_and, Bool.false_and, Bool.and_true, Bool.and_false,
          if_true, if_false, List.length_cons, Bool.false_eq_true, ite_false, ite_true] <;>
        omega

/-- Claim C4: a pair of sequences sharing no ungapped column makes the
distance calculation fail with `DegenerateAlignmentError` instead of
producing a distance. -/
theorem pair_distance_degenerate (s t : List Char) (h : comparableCount s t = 0) :
    pairDistance s t = .error .degenerateAlignment := by
  simp [pairDistance, h]

/-- Witness for C4: the two sequences `A-` and `-A` are gap-vs-non-gap at
every column and the calculator fails on them. -/
theorem pair_distance_degenerate_witness :
    comparableCount "A-".data "-A".data = 0 ∧
      pairDistance "A-".data "-A".data = .error .degenerateAlignment :=
  ⟨by decide, pair_distance_degenerate "A-".data "-A".data (by decide)⟩

/-- Claim C2: for a pair of equal-length sequences with at least one
comparable position, the distance equals `1 - identical / comparable` and
lies in `[0, 1]`. -/
theorem pair_distance_formula_range (s t : List Char) (hlen : s.length = t.length)
    (h : comparableCount s t ≠ 0) :
    pairDistance s t =
        .ok (1 - (identicalCount s t : ℚ) / (comparableCount s t : ℚ)) ∧
      ∀ q, pairDistance s t = .ok q → 0 ≤ q ∧ q ≤ 1 := by
  have hformula : pairDistance s t =
      .ok (1 - (identicalCount s t : ℚ) / (comparableCount s t : ℚ)) := by
    simp [pairDistance, h]
  refine ⟨hformula, fun q hq => ?_⟩
  rw [hformula] at hq
  have hqv : q = 1 - (identicalCount s t : ℚ) / (comparableCount s t : ℚ) := by
    cases hq; rfl
  subst hqv
  have hc : (0 : ℚ) < (comparableCount s t : ℚ) :=
    Nat.cast_pos.mpr (Nat.pos_of_ne_zero h)
  have hi : (identicalCount s t : ℚ) ≤ (comparableCount s t : ℚ) :=
    Nat.cast_le.mpr (identicalCount_le_comparableCount s t)
  constructor
  · have : (identicalCount s t : ℚ) / (comparableCount s t : ℚ) ≤ 1 :=
      (div_le_one hc).mpr hi
    linarith
  · have : (0 : ℚ) ≤ (identicalCount s t : ℚ) / (comparableCount s t : ℚ) :=
      div_nonneg (Nat.cast_nonneg _) (le_of_lt hc)
    linarith

/-- Witness for C2 at the concrete pair `AT` / `AA`. -/
theorem pair_distance_formula_range_witness :
    pairDistance "AT".data "AA".data =
        .ok (1 - (identicalCount "AT".data "AA".data : ℚ) /
          (comparableCount "AT".data "AA".data : ℚ)) ∧
      ∀ q, pairDistance "AT".data "AA".data = .ok q → 0 ≤ q ∧ q ≤ 1 :=
  pair_distance_formula_range "AT".data "AA".data (by decide) (by decide)

/-- Claim C6: the pipeline is a pure function of the alignment, so two runs
on equal inputs produce identical trees and identical Newick text. -/
theorem pipeline_deterministic (recs1 recs2 : List SeqRecord) (h : recs1 = recs2) :
    runCore recs1 = runCore recs2 := by
  rw [h]

/-- Witness for C6: two runs on the demo alignment agree. -/
theorem pipeline_deterministic_witness : runCore demoRecs = runCore demoRecs :=
  pipeline_deterministic demoRecs demoRecs rfl

/-- Claim C10: the distance matrix computed explicitly at line 73 is never
read afterwards; removing that call leaves the tree and the Newick output
(and hence anything rendered from the tree) unchanged on every input. -/
theorem explicit_matrix_unused (recs : List SeqRecord) :
    runCore recs = runCoreNoExplicitMatrix recs := by
  unfold runCore runCoreNoExplicitMatrix buildTreeFromAlignment
  cases computePairs recs <;> simp

/-- Counterexample for C5: when the PNG-rendering stage fails, the run as a
whole fails, yet the output directory is not empty — the aligned FASTA and
the Newick file of the earlier stages remain. -/
theorem script_partial_output_cex :
    (scriptRun ⟨true, true, false⟩).2 = false ∧
      (scriptRun ⟨true, true, false⟩).1 ≠ [] := by
  decide

/-- Claim C5 as amended: each stage's file persists exactly when that stage
and all earlier stages succeed, so a failing stage leaves the outputs of the
completed earlier stages behind; the run succeeds iff all three stages do. -/
theorem script_stage_outputs (o : StageOutcomes) :
    (scriptRun o).1 =
        (if o.alignOk then [OutFile.alignedFasta] else []) ++
          (if o.alignOk && o.treeOk then [OutFile.newickFile] else []) ++
          (if o.alignOk && o.treeOk && o.drawOk then [OutFile.pngImage] else []) ∧
      (scriptRun o).2 = (o.alignOk && o.treeOk && o.drawOk) := by
  obtain ⟨a, t, d⟩ := o
  cases a <;> cases t <;> cases d <;> simp [scriptRun]

theorem sumDist_append (d0 : String → String → ℚ) (xs ys zs : List String) :
    sumDist d0 (xs ++ ys) zs = sumDist d0 xs zs + sumDist d0 ys zs := by
  simp [sumDist]

theorem sumDist_nil_right (d0 : String → String → ℚ) (xs : List String) :
    sumDist d0 xs [] = 0 := by
  induction xs with
  | nil => simp [sumDist]
  | cons x l ih => simpa [sumDist] using ih

/-- Claim C1: merging clusters `A` and `B` gives a cluster whose distance to
any cluster `C` is the size-weighted average
`(|A| d(A,C) + |B| d(B,C)) / (|A| + |B|)` of the previous distances. -/
theorem upgma_weighted_update (d0 : String → String → ℚ) (a b c : Cluster)
    (ha : a.members ≠ []) (hb : b.members ≠ []) :
    clusterDist d0 (mergeClusters d0 a b) c =
      ((a.members.length : ℚ) * clusterDist d0 a c +
        (b.members.length : ℚ) * clusterDist d0 b c) /
      ((a.members.length : ℚ) + (b.members.length : ℚ)) := by
  have hm : (mergeClusters d0 a b).members = a.members ++ b.members := rfl
  have hp : (a.members.length : ℚ) ≠ 0 :=
    Nat.cast_ne_zero.mpr (fun hz => ha (List.length_eq_zero.mp hz))
  have hq : (b.members.length : ℚ) ≠ 0 :=
    Nat.cast_ne_zero.mpr (fun hz => hb (List.length_eq_zero.mp hz))
  rcases Nat.eq_zero_or_pos c.members.length with hc | hc
  · have hcm : c.members = [] := List.length_eq_zero.mp hc
    simp [clusterDist, hm, hcm, sumDist_nil_right]
  · have hr : (c.members.length : ℚ) ≠ 0 := Nat.cast_ne_zero.mpr (Nat.pos_iff_ne_zero.mp hc)
    simp only [clusterDist, hm, sumDist_append, List.length_append, Nat.cast_add]
    field_simp
    ring

/-- Witness for C1 on three singleton clusters at unit distances. -/
theorem upgma_weighted_update_witness :
    clusterDist (fun _ _ => 1)
        (mergeClusters (fun _ _ => 1) ⟨.leaf "A" 0, ["A"], 0⟩ ⟨.leaf "B" 0, ["B"], 0⟩)
        ⟨.leaf "C" 0, ["C"], 0⟩ =
      (((["A"] : List String).length : ℚ) *
          clusterDist (fun _ _ => 1) ⟨.leaf "A" 0, ["A"], 0⟩ ⟨.leaf "C" 0, ["C"], 0⟩ +
        ((["B"] : List String).length : ℚ) *
          clusterDist (fun _ _ => 1) ⟨.leaf "B" 0, ["B"], 0⟩ ⟨.leaf "C" 0, ["C"], 0⟩) /
      (((["A"] : List String).length : ℚ) + ((["B"] : List String).length : ℚ)) :=
  upgma_weighted_update (fun _ _ => 1) ⟨.leaf "A" 0, ["A"], 0⟩ ⟨.leaf "B" 0, ["B"], 0⟩
    ⟨.leaf "C" 0, ["C"], 0⟩ (by decide) (by decide)

/-- Counterexample for C3: on the given four sequences the distance between
`B = AAAT` and `D = TTTA` is `1` (every position differs), not the claimed
`0.5`, and the Newick output is not the claimed string. -/
theorem concrete_scenario_cex :
    pairDistance "AAAT".data "TTTA".data = .ok 1 ∧ (1 : ℚ) ≠ 1 / 2 ∧
      (runCore demoRecs).map Prod.snd ≠
        .ok "((A:0.125,B:0.125):0.25,(C:0.125,D:0.125):0.25);" := by
  refine ⟨by with_unfolding_all decide, by norm_num, by with_unfolding_all decide⟩

/-- Claim C3 as amended: on the four-sequence input the pipeline computes
`d(A,B)=0.25`, `d(C,D)=0.25`, `d(A,C)=1`, `d(A,D)=0.75`, `d(B,C)=0.75`,
`d(B,D)=1`, and produces the Newick output
`((A:0.125,B:0.125):0.3125,(C:0.125,D:0.125):0.3125);`. -/
theorem concrete_scenario_amended :
    computePairs demoRecs = .ok demoMatrix ∧
      runCore demoRecs =
        .ok (demoTree, "((A:0.125,B:0.125):0.3125,(C:0.125,D:0.125):0.3125);") := by
  exact ⟨by with_unfolding_all decide, by with_unfolding_all decide⟩

theorem mapE_ok_length {α β ε : Type} (f : α → Except ε β) (l : List α) (r : List β)
    (h : mapE f l = .ok r) : r.length = l.length := by
  induction l generalizing r with
  | nil => simp only [mapE] at h; cases h; rfl
  | cons a l ih =>
      simp only [mapE] at h
      cases hfa : f a with
      | error e => rw [hfa] at h; cases h
      | ok b =>
          rw [hfa] at h
          cases hml : mapE f l with
          | error e => rw [hml] at h; cases h
          | ok rr =>
              rw [hml] at h
              cases h
              simp [ih rr hml]

theorem mapE_ok_get {α β ε : Type} (f : α → Except ε β) (l : List α) (r : List β)
    (h : mapE f l = .ok r) (i : ℕ) (hi : i < l.length) (hi2 : i < r.length) :
    f (l.get ⟨i, hi⟩) = .ok (r.get ⟨i, hi2⟩) := by
  induction l generalizing r i with
  | nil => cases hi
  | cons a l ih =>
      simp only [mapE] at h
      cases hfa : f a with
      | error e => rw [hfa] at h; cases h
      | ok b =>
          rw [hfa] at h
          cases hml : mapE f l with
          | error e => rw [hml] at h; cases h
          | ok rr =>
              rw [hml] at h
              cases h
              cases i with
              | zero => simpa using hfa
              | succ j =>
                  have hj : j < l.length := Nat.lt_of_succ_lt_succ hi
                  have hj2 : j < rr.length := Nat.lt_of_succ_lt_succ hi2
                  simpa using ih rr hml j hj hj2

theorem comparableCount_symm (s t : List Char) :
    comparableCount s t = comparableCount t s := by
  induction s generalizing t with
  | nil => cases t <;> simp [comparableCount]
  | cons a s ih =>
      cases t with
      | nil => simp [comparableCount]
      | cons b t =>
          simp only [comparableCount, List.zip_cons_cons, List.filter_cons]
          rw [show (!isGap a && !isGap b) = (!isGap b && !isGap a) from Bool.and_comm _ _]
          have ih' := ih t
          simp only [comparableCount] at ih'
          by_cases hc : (!isGap b && !isGap a) = true <;> simp [hc, ih']

theorem identicalCount_symm (s t : List Char) :
    identicalCount s t = identicalCount t s := by
  induction s generalizing t with
  | nil => cases t <;> simp [identicalCount]
  | cons a s ih =>
      cases t with
      | nil => simp [identicalCount]
      | cons b t =>
          simp only [identicalCount, List.zip_cons_cons, List.filter_cons]
          rw [show (!isGap a && !isGap b && decide (a = b)) =
              (!isGap b && !isGap a && decide (b = a)) by
            rw [show (!isGap a && !isGap b) = (!isGap b && !isGap a) from Bool.and_comm _ _,
              decide_eq_decide.mpr eq_comm]]
          have ih' := ih t
          simp only [identicalCount] at ih'
          by_cases hc : (!isGap b && !isGap a && decide (b = a)) = true <;> simp [hc, ih']

theorem identicalCount_self (s : List Char) :
    identicalCount s s = comparableCount s s := by
  induction s with
  | nil => simp [identicalCount, comparableCount]
  | cons a s ih =>
      simp only [identicalCount, comparableCount, List.zip_cons_cons, List.filter_cons] at ih ⊢
      simp only [decide_True, Bool.and_true]
      by_cases hg : isGap a = true <;> simp [hg, ih]

theorem pairDistance_symm (s t : List Char) : pairDistance s t = pairDistance t s := by
  unfold pairDistance
  rw [comparableCount_symm, identicalCount_symm]

theorem pairDistance_self (s : List Char) (h : comparableCount s s ≠ 0) :
    pairDistance s s = .ok 0 := by
  have hc : ((comparableCount s s : ℚ)) ≠ 0 := Nat.cast_ne_zero.mpr h
  simp [pairDistance, h, identicalCount_self, div_self hc]

/-- Claim C8: a successfully computed distance matrix is symmetric and has
zeros on the diagonal. -/
theorem distance_matrix_symm_diag (recs : List SeqRecord) (m : List (List ℚ))
    (h : computePairs recs = .ok m) (i j : ℕ)
    (hi : i < recs.length) (hj : j < recs.length) :
    (m.getD i []).getD j 0 = (m.getD j []).getD i 0 ∧
      (m.getD i []).getD i 0 = 0 := by
  have hml := mapE_ok_length _ recs m h
  have hi' : i < m.length := by omega
  have hj' : j < m.length := by omega
  have hrowi := mapE_ok_get _ recs m h i hi hi'
  have hrowj := mapE_ok_get _ recs m h j hj hj'
  have hrl_i := mapE_ok_length _ recs _ hrowi
  have hrl_j := mapE_ok_length _ recs _ hrowj
  have hij : j < (m.get ⟨i, hi'⟩).length := by omega
  have hji : i < (m.get ⟨j, hj'⟩).length := by omega
  have hii : i < (m.get ⟨i, hi'⟩).length := by omega
  have he_ij := mapE_ok_get _ recs _ hrowi j hj hij
  have he_ji := mapE_ok_get _ recs _ hrowj i hi hji
  have he_ii := mapE_ok_get _ recs _ hrowi i hi hii
  rw [List.getD_eq_get m [] hi', List.getD_eq_get m [] hj',
    List.getD_eq_get _ (0 : ℚ) hij, List.getD_eq_get _ (0 : ℚ) hji,
    List.getD_eq_get _ (0 : ℚ) hii]
  constructor
  · rw [pairDistance_symm] at he_ij
    rw [he_ji] at he_ij
    exact (Except.ok.inj he_ij).symm
  · by_cases hc : comparableCount (recs.get ⟨i, hi⟩).seq (recs.get ⟨i, hi⟩).seq = 0
    · rw [pair_distance_degenerate _ _ hc] at he_ii
      cases he_ii
    · rw [pairDistance_self _ hc] at he_ii
      exact (Except.ok.inj he_ii).symm

/-- Witness for C8 on the demo alignment at indices 0 and 1. -/
theorem distance_matrix_symm_diag_witness :
    (demoMatrix.getD 0 []).getD 1 0 = (demoMatrix.getD 1 []).getD 0 0 ∧
      (demoMatrix.getD 0 []).getD 0 0 = 0 :=
  distance_matrix_symm_diag demoRecs demoMatrix (by with_unfolding_all decide) 0 1
    (by decide) (by decide)

/-- Claim C9: fewer than two leaf identifiers make the tree builder fail with
`InsufficientTaxaError`, and the failure propagates through the pipeline. -/
theorem build_tree_insufficient_taxa (d0 : String → String → ℚ) (ids : List String)
    (h : ids.length < 2) :
    buildTree d0 ids = .error .insufficientTaxa ∧
      ∀ recs m, recs.map (fun r => r.id) = ids → computePairs recs = .ok m →
        runCore recs = .error .insufficientTaxa := by
  constructor
  · simp [buildTree, h]
  · intro recs m hmap hcp
    have hb : buildTree (d0OfRecs recs) (recs.map (fun r => r.id)) =
        .error .insufficientTaxa := by
      rw [hmap]
      simp [buildTree, h]
    simp [runCore, buildTreeFromAlignment, hcp, hb]

/-- Witness for C9 on a single-record alignment. -/
theorem build_tree_insufficient_taxa_witness :
    buildTree (fun _ _ => 0) ["A"] = .error .insufficientTaxa ∧
      runCore [⟨"A", "AA".data⟩] = .error .insufficientTaxa := by
  have h := build_tree_insufficient_taxa (fun _ _ => 0) ["A"] (by decide)
  exact ⟨h.1, h.2 [⟨"A", "AA".data⟩] [[0]] rfl (by with_unfolding_all decide)⟩

theorem foldl_choose_mem (d0 : String → String → ℚ) :
    ∀ (ps : List (Cluster × Cluster)) (acc : Option (Cluster × Cluster))
      (r : Cluster × Cluster),
      ps.foldl (chooseStep d0) acc = some r → acc = some r ∨ r ∈ ps := by
  intro ps
  induction ps with
  | nil => intro acc r h; exact .inl h
  | cons p ps ih =>
      intro acc r h
      simp only [List.foldl_cons] at h
      rcases ih _ r h with hstep | hmem
      · cases acc with
        | none =>
            simp only [chooseStep] at hstep
            cases hstep
            exact .inr (List.mem_cons_self _ _)
        | some q =>
            simp only [chooseStep] at hstep
            by_cases hb : betterPair d0 p q = true
            · rw [if_pos hb] at hstep
              cases hstep
              exact .inr (List.mem_cons_self _ _)
            · rw [if_neg hb] at hstep
              exact .inl hstep
      · exact .inr (List.mem_cons_of_mem _ hmem)

theorem foldl_choose_some (d0 : String → String → ℚ) :
    ∀ (ps : List (Cluster × Cluster)) (q : Cluster × Cluster),
      ∃ r, ps.foldl (chooseStep d0) (some q) = some r := by
  intro ps
  induction ps with
  | nil => exact fun q => ⟨q, rfl⟩
  | cons p ps ih =>
      intro q
      simp only [List.foldl_cons, chooseStep]
      by_cases hb : betterPair d0 p q = true
      · rw [if_pos hb]
        exact ih p
      · rw [if_neg hb]
        exact ih q

theorem chooseMinPair_mem (d0 : String → String → ℚ) (cs : List Cluster)
    (a b : Cluster) (h : chooseMinPair d0 cs = some (a, b)) : (a, b) ∈ allPairs cs := by
  unfold chooseMinPair at h
  rcases foldl_choose_mem d0 (allPairs cs) none (a, b) h with h' | h'
  · cases h'
  · exact h'

theorem chooseMinPair_some (d0 : String → String → ℚ) (c d : Cluster) (cs : List Cluster) :
    ∃ r, chooseMinPair d0 (c :: d :: cs) = some r := by
  unfold chooseMinPair
  have hps : allPairs (c :: d :: cs) =
      (c, d) :: (cs.map (fun x => (c, x)) ++ allPairs (d :: cs)) := by
    simp [allPairs]
  rw [hps]
  simp only [List.foldl_cons]
  exact foldl_choose_some d0 _ (c, d)

theorem allPairs_mem_left :
    ∀ {cs : List Cluster} {a b : Cluster}, (a, b) ∈ allPairs cs → a ∈ cs ∧ b ∈ cs := by
  intro cs
  induction cs with
  | nil => intro a b h; cases h
  | cons c t ih =>
      intro a b h
      simp only [allPairs, List.mem_append, List.mem_map] at h
      rcases h with ⟨d, hd, heq⟩ | h
      · injection heq with h1 h2
        subst h1; subst h2
        exact ⟨List.mem_cons_self _ _, List.mem_cons_of_mem _ hd⟩
      · rcases ih h with ⟨ha, hb⟩
        exact ⟨List.mem_cons_of_mem _ ha, List.mem_cons_of_mem _ hb⟩

theorem allPairs_ne :
    ∀ {cs : List Cluster} {a b : Cluster}, cs.Nodup → (a, b) ∈ allPairs cs → a ≠ b := by
  intro cs
  induction cs with
  | nil => intro a b _ h; cases h
  | cons c t ih =>
      intro a b hnd h
      simp only [allPairs, List.mem_append, List.mem_map] at h
      rcases h with ⟨d, hd, heq⟩ | h
      · injection heq with h1 h2
        subst h1; subst h2
        exact fun hcd => (List.nodup_cons.mp hnd).1 (hcd ▸ hd)
      · exact ih (List.nodup_cons.mp hnd).2 h

theorem disj_symm : Symmetric Disj := by
  intro c d h x hxd hxc
  exact h x hxc hxd

theorem clusterInv_nodup {ids : List String} {cs : List Cluster}
    (h : ClusterInv ids cs) : cs.Nodup := by
  rcases h with ⟨h1, h2, _⟩
  refine List.Pairwise.imp_of_mem ?_ h2
  intro c d hc _ hdisj hcd
  subst hcd
  rcases h1 c hc with ⟨hne, _⟩
  cases hm : c.members with
  | nil => exact hne hm
  | cons x xs =>
      exact hdisj x (by rw [hm]; exact List.mem_cons_self _ _)
        (by rw [hm]; exact List.mem_cons_self _ _)

theorem filter_ne_of_not_mem {cs : List Cluster} {b : Cluster} (h : b ∉ cs) :
    cs.filter (fun c => !(c == b)) = cs := by
  apply List.filter_eq_self.mpr
  intro c hc
  have : (c == b) = false := beq_eq_false_iff_ne.mpr (fun he => h (he ▸ hc))
  rw [this]
  rfl

theorem filter_remove_one {cs : List Cluster} {b : Cluster} (hnd : cs.Nodup) (hb : b ∈ cs)
    (g : Cluster → Multiset String) :
    (cs.filter (fun c => !(c == b))).length + 1 = cs.length ∧
      ((cs.filter (fun c => !(c == b))).map g).sum + g b = (cs.map g).sum := by
  induction cs with
  | nil => cases hb
  | cons c t ih =>
      rcases List.nodup_cons.mp hnd with ⟨hct, hndt⟩
      rcases List.mem_cons.mp hb with hcb | hbt
      · subst hcb
        have hpc : (!(b == b)) = false := by simp
        rw [List.filter_cons, hpc]
        simp only [Bool.false_eq_true, if_false]
        rw [filter_ne_of_not_mem hct]
        constructor
        · simp
        · simp [add_comm]
      · have hcb : ¬(c = b) := fun he => hct (he ▸ hbt)
        have hpc : (!(c == b)) = true := by simp [hcb]
        rw [List.filter_cons, hpc]
        simp only [if_true]
        obtain ⟨ihl, ihs⟩ := ih hndt hbt
        constructor
        · simp only [List.length_cons]
          omega
        · simp only [List.map_cons, List.sum_cons]
          rw [add_assoc, ihs]

theorem filter_remove_two {cs : List Cluster} {a b : Cluster} (hnd : cs.Nodup)
    (ha : a ∈ cs) (hb : b ∈ cs) (hab : a ≠ b) (g : Cluster → Multiset String) :
    (cs.filter (fun c => !(c == a) && !(c == b))).length + 2 = cs.length ∧
      ((cs.filter (fun c => !(c == a) && !(c == b))).map g).sum + g a + g b =
        (cs.map g).sum := by
  induction cs with
  | nil => cases ha
  | cons c t ih =>
      rcases List.nodup_cons.mp hnd with ⟨hct, hndt⟩
      rcases List.mem_cons.mp ha with hca | hat
      · subst hca
        have hbt : b ∈ t := by
          rcases List.mem_cons.mp hb with h' | h'
          · exact absurd h'.symm hab
          · exact h'
        have hpc : (!(a == a) && !(a == b)) = false := by simp
        rw [List.filter_cons, hpc]
        simp only [Bool.false_eq_true, if_false]
        have hcg : t.filter (fun c => !(c == a) && !(c == b)) =
            t.filter (fun c => !(c == b)) := by
          apply List.filter_congr
          intro x hx
          have : (x == a) = false := beq_eq_false_iff_ne.mpr (fun he => hct (he ▸ hx))
          rw [this]
          rfl
        rw [hcg]
        obtain ⟨ihl, ihs⟩ := filter_remove_one hndt hbt g
        constructor
        · simp only [List.length_cons]
          omega
        · simp only [List.map_cons, List.sum_cons]
          calc ((t.filter (fun c => !(c == b))).map g).sum + g a + g b
              = ((t.filter (fun c => !(c == b))).map g).sum + g b + g a := by
                rw [add_assoc, add_comm (g a), ← add_assoc]
            _ = (t.map g).sum + g a := by rw [ihs]
            _ = g a + (t.map g).sum := add_comm _ _
      · rcases List.mem_cons.mp hb with hcb | hbt
        · subst hcb
          have hpc : (!(a == b) && !(b == b)) = false := by simp
          have hpc2 : (!(b == a) && !(b == b)) = false := by simp
          rw [List.filter_cons, hpc2]
          simp only [Bool.false_eq_true, if_false]
          have hcg : t.filter (fun c => !(c == a) && !(c == b)) =
              t.filter (fun c => !(c == a)) := by
            apply List.filter_congr
            intro x hx
            have : (x == b) = false := beq_eq_false_iff_ne.mpr (fun he => hct (he ▸ hx))
            rw [this]
            simp
          rw [hcg]
          obtain ⟨ihl, ihs⟩ := filter_remove_one hndt hat g
          constructor
          · simp only [List.length_cons]
            omega
          · simp only [List.map_cons, List.sum_cons]
            rw [ihs, add_comm]
        · have hca : ¬(c = a) := fun he => hct (he ▸ hat)
          have hcb : ¬(c = b) := fun he => hct (he ▸ hbt)
          have hpc : (!(c == a) && !(c == b)) = true := by simp [hca, hcb]
          rw [List.filter_cons, hpc]
          simp only [if_true]
          obtain ⟨ihl, ihs⟩ := ih hndt hat hbt
          constructor
          · simp only [List.length_cons]
            omega
          · simp only [List.map_cons, List.sum_cons]
            rw [add_assoc (g c), add_assoc (g c), ihs]

theorem leafLabels_setBL (t : TreeNode) (q : ℚ) :
    (TreeNode.setBL t q).leafLabels = t.leafLabels := by
  cases t <;> rfl

theorem mergeClusters_members (d0 : String → String → ℚ) (a b : Cluster) :
    (mergeClusters d0 a b).members = a.members ++ b.members := rfl

theorem mergeClusters_labels (d0 : String → String → ℚ) (a b : Cluster) :
    (mergeClusters d0 a b).tree.leafLabels =
      a.tree.leafLabels ++ b.tree.leafLabels := by
  simp [mergeClusters, TreeNode.leafLabels, leafLabels_setBL]

theorem mergeStep_inv (d0 : String → String → ℚ) (ids : List String) (cs : List Cluster)
    (h : ClusterInv ids cs) (h2 : 2 ≤ cs.length) :
    ClusterInv ids (mergeStep d0 cs) ∧ (mergeStep d0 cs).length + 1 = cs.length := by
  have hnd := clusterInv_nodup h
  obtain ⟨c, d, t, rfl⟩ : ∃ c d t, cs = c :: d :: t := by
    cases cs with
    | nil => simp at h2
    | cons c t1 =>
        cases t1 with
        | nil => simp at h2
        | cons d t => exact ⟨c, d, t, rfl⟩
  obtain ⟨⟨a, b⟩, hp⟩ := chooseMinPair_some d0 c d t
  have hmem := chooseMinPair_mem d0 _ a b hp
  have hab := allPairs_ne hnd hmem
  obtain ⟨haIn, hbIn⟩ := allPairs_mem_left hmem
  have hms : mergeStep d0 (c :: d :: t) =
      (c :: d :: t).filter (fun x => !(x == a) && !(x == b)) ++
        [mergeClusters d0 a b] := by
    unfold mergeStep
    rw [hp]
  obtain ⟨hrmL, hrmS⟩ :=
    filter_remove_two hnd haIn hbIn hab (fun c => (c.members : Multiset String))
  obtain ⟨hWell, hPw, hSum⟩ := h
  rw [hms]
  refine ⟨⟨?_, ?_, ?_⟩, ?_⟩
  · intro x hx
    rcases List.mem_append.mp hx with hxf | hxm
    · exact hWell x (List.mem_of_mem_filter hxf)
    · have hxe : x = mergeClusters d0 a b := by simpa using hxm
      subst hxe
      constructor
      · rw [mergeClusters_members]
        exact fun happ => (hWell a haIn).1 (List.append_eq_nil.mp happ).1
      · rw [mergeClusters_labels, mergeClusters_members,
          (hWell a haIn).2, (hWell b hbIn).2]
  · rw [List.pairwise_append]
    refine ⟨List.Pairwise.sublist (List.filter_sublist _) hPw, ?_, ?_⟩
    · simp
    · intro x hxF y hy
      have hym : y = mergeClusters d0 a b := by simpa using hy
      subst hym
      have hxcs := List.mem_of_mem_filter hxF
      have hcond := List.of_mem_filter hxF
      simp only [Bool.and_eq_true, Bool.not_eq_true', beq_eq_false_iff_ne] at hcond
      have hDa : Disj x a := List.Pairwise.forall disj_symm hPw hxcs haIn hcond.1
      have hDb : Disj x b := List.Pairwise.forall disj_symm hPw hxcs hbIn hcond.2
      intro z hzx
      rw [mergeClusters_members]
      simp only [List.mem_append]
      exact fun hor => hor.elim (hDa z hzx) (hDb z hzx)
  · rw [List.map_append, List.sum_append]
    simp only [List.map_cons, List.map_nil, List.sum_cons, List.sum_nil, add_zero]
    rw [mergeClusters_members]
    have hcoe : ((a.members ++ b.members : List String) : Multiset String) =
        (a.members : Multiset String) + (b.members : Multiset String) := by
      simp
    rw [hcoe, ← add_assoc, hrmS]
    exact hSum
  · rw [List.length_append]
    simp only [List.length_cons, List.length_nil] at hrmL ⊢
    omega

theorem initClusters_sum (ids : List String) :
    ((initClusters ids).map (fun c => (c.members : Multiset String))).sum =
      (ids : Multiset String) := by
  induction ids with
  | nil => simp [initClusters]
  | cons i l ih =>
      simp only [initClusters, List.map_cons, List.sum_cons] at ih ⊢
      rw [ih]
      simp

theorem initClusters_inv (ids : List String) (h : ids.Nodup) :
    ClusterInv ids (initClusters ids) := by
  refine ⟨?_, ?_, initClusters_sum ids⟩
  · intro c hc
    obtain ⟨i, _, rfl⟩ := List.mem_map.mp hc
    exact ⟨by simp, rfl⟩
  · unfold initClusters
    rw [List.pairwise_map]
    refine List.Pairwise.imp ?_ h
    intro i j hij x hx
    simp only [List.mem_singleton] at hx ⊢
    subst hx
    exact fun he => hij he

theorem iterateMerge_inv (d0 : String → String → ℚ) (ids : List String) :
    ∀ (n : ℕ) (cs : List Cluster), ClusterInv ids cs → cs.length = n + 1 →
      ∃ c, iterateMerge d0 n cs = [c] ∧ ClusterInv ids [c] := by
  intro n
  induction n with
  | zero =>
      intro cs h hlen
      obtain ⟨c, rfl⟩ := List.length_eq_one.mp hlen
      exact ⟨c, rfl, h⟩
  | succ n ih =>
      intro cs h hlen
      have h2 : 2 ≤ cs.length := by omega
      obtain ⟨hinv, hlen'⟩ := mergeStep_inv d0 ids cs h h2
      obtain ⟨c, hc, hcinv⟩ := ih (mergeStep d0 cs) hinv (by omega)
      exact ⟨c, hc, hcinv⟩

/-- Claim C7: a successfully built tree has exactly one leaf per input
identifier: its leaf-label list has the length of the identifier list and the
same membership. -/
theorem build_tree_leaves (d0 : String → String → ℚ) (ids : List String)
    (hnd : ids.Nodup) (t : TreeNode) (h : buildTree d0 ids = .ok t) :
    t.leafLabels.length = ids.length ∧ ∀ x, x ∈ t.leafLabels ↔ x ∈ ids := by
  by_cases hlen : ids.length < 2
  · simp [buildTree, hlen] at h
  · have hinit : (initClusters ids).length = ids.length := by simp [initClusters]
    obtain ⟨c, hc, hcinv⟩ := iterateMerge_inv d0 ids (ids.length - 1) (initClusters ids)
      (initClusters_inv ids hnd) (by omega)
    unfold buildTree at h
    rw [if_neg hlen, hc] at h
    have ht : t = c.tree := (Except.ok.inj h).symm
    subst ht
    obtain ⟨hW, _, hS⟩ := hcinv
    have hlab : c.tree.leafLabels = c.members := (hW c (List.mem_singleton_self c)).2
    have hperm : c.members.Perm ids := Multiset.coe_eq_coe.mp (by simpa using hS)
    constructor
    · rw [hlab, hperm.length_eq]
    · intro x
      rw [hlab]
      exact hperm.mem_iff

/-- Witness for C7 on the two-leaf input `["A", "B"]` at unit distance. -/
theorem build_tree_leaves_witness :
    (TreeNode.internal (.leaf "A" (1/2)) (.leaf "B" (1/2)) 0).leafLabels.length =
        (["A", "B"] : List String).length ∧
      ∀ x, x ∈ (TreeNode.internal (.leaf "A" (1/2)) (.leaf "B" (1/2)) 0).leafLabels ↔
        x ∈ (["A", "B"] : List String) :=
  build_tree_leaves (fun _ _ => 1) ["A", "B"] (by decide)
    (.internal (.leaf "A" (1/2)) (.leaf "B" (1/2)) 0) (by with_unfolding_all decide)

end Phylogene
